import Mathlib

/-!
# Verification of the note-taking route (`app/routes/$id.tsx` and its plain variant)

Shallow embedding of the repository's client-side encryption helpers
(`deriveKey`, `encryptMessage`, `decryptMessage`, `isBase64`), the
server-side `loader`/`action` of both route variants, and the component
handlers (`handleCreateSubmit`, `handleDecryptAll`).

Platform primitives are modelled as follows:

* `btoa`/`atob` (base64 for binary strings) are implemented concretely on
  byte lists (`List Nat`, each entry `< 256`), following the WHATWG
  forgiving-base64 algorithm that `atob` implements.
* `TextEncoder.encode`/`TextDecoder.decode` are implemented concretely as
  UTF-8 on `List Nat` (the decoder is total, emitting U+FFFD on invalid
  input, like the default non-fatal `TextDecoder`; its resynchronisation on
  invalid bytes is simplified, which no theorem below depends on).
* `crypto.subtle`'s PBKDF2 and AES-GCM are abstracted as a `SubtleCrypto`
  structure whose fields carry the standard contracts of AES-GCM
  (decryption inverts encryption under the same key and IV, the ciphertext
  is plaintext length plus the 16-byte tag, ciphertext entries are bytes).
-/

namespace TodoApp

/-- A list of byte values (each `< 256`): the model of JS `Uint8Array`s and
of "binary strings" (JS strings all of whose char codes are `≤ 255`). -/
def ValidBytes (l : List Nat) : Prop := ∀ b ∈ l, b < 256

instance (l : List Nat) : Decidable (ValidBytes l) :=
  inferInstanceAs (Decidable (∀ b ∈ l, b < 256))

/-! ## base64 (`btoa` / `atob`) -/

/-- The standard base64 alphabet used by `btoa`/`atob`. -/
def base64Alphabet : List Char :=
  "ABCDEFGHIJKLMNOPQRSTUVWXYZabcdefghijklmnopqrstuvwxyz0123456789+/".data

/-- The base64 character for a sextet value. -/
def b64Char (n : Nat) : Char := base64Alphabet.getD n 'A'

/-- The sextet value of a base64 character (`none` off the alphabet,
in particular for `'='`). -/
def b64Index (c : Char) : Option Nat := base64Alphabet.findIdx? (· == c)

/-- Split a byte list into base64 sextets (no padding yet). -/
def sextets : List Nat → List Nat
  | [] => []
  | [a] => [a / 4, a % 4 * 16]
  | [a, b] => [a / 4, a % 4 * 16 + b / 16, b % 16 * 4]
  | a :: b :: c :: rest =>
      a / 4 :: (a % 4 * 16 + b / 16) :: (b % 16 * 4 + c / 64) :: c % 64 :: sextets rest

/-- Number of `'='` padding characters `btoa` appends. -/
def padCount (l : List Nat) : Nat :=
  if l.length % 3 = 1 then 2 else if l.length % 3 = 2 then 1 else 0

/-- The characters of `btoa` applied to a byte list. -/
def btoaChars (l : List Nat) : List Char :=
  (sextets l).map b64Char ++ List.replicate (padCount l) '='

/-- JS `btoa` on a binary string, i.e. base64 with `'='` padding. -/
def btoa (l : List Nat) : String := ⟨btoaChars l⟩

/-- The ASCII whitespace that forgiving-base64 (`atob`) strips. -/
def isB64Ws (c : Char) : Bool :=
  c == ' ' || c == Char.ofNat 9 || c == Char.ofNat 10 ||
  c == Char.ofNat 12 || c == Char.ofNat 13

/-- Strip up to two trailing `'='` when the length is a multiple of four
(step 2 of forgiving-base64). -/
def stripPadding (l : List Char) : List Char :=
  if l.length % 4 = 0 then
    if l.reverse.take 2 = ['=', '='] then (l.reverse.drop 2).reverse
    else if l.reverse.take 1 = ['='] then (l.reverse.drop 1).reverse
    else l
  else l

/-- Look every character up in the alphabet, failing on any foreign one. -/
def decodeChars : List Char → Option (List Nat)
  | [] => some []
  | c :: r =>
    match b64Index c, decodeChars r with
    | some v, some vs => some (v :: vs)
    | _, _ => none

/-- Reassemble bytes from sextets; a trailing group of two or three sextets
contributes one or two bytes, its leftover bits discarded (forgiving-base64). -/
def b64Group : List Nat → List Nat
  | a :: b :: c :: d :: rest =>
      (a * 4 + b / 16) :: (b % 16 * 16 + c / 4) :: (c % 4 * 64 + d) :: b64Group rest
  | [a, b] => [a * 4 + b / 16]
  | [a, b, c] => [a * 4 + b / 16, b % 16 * 16 + c / 4]
  | _ => []

/-- JS `atob`: the WHATWG forgiving-base64 decode, `none` modelling the
`InvalidCharacterError` it throws on invalid input. -/
def atob (s : String) : Option (List Nat) :=
  let data := stripPadding (s.data.filter fun c => !(isB64Ws c))
  if data.length % 4 = 1 then none
  else (decodeChars data).map b64Group

example : atob "AA" = some [0] := by decide
example : atob "aGk=" = some [104, 105] := by decide
example : btoa [104, 105] = "aGk=" := by decide
example : atob "a=b" = none := by decide
example : atob (btoa [0, 255, 17, 3]) = some [0, 255, 17, 3] := by decide

/-! ## UTF-8 (`TextEncoder.encode` / `TextDecoder.decode`) -/

/-- U+FFFD, emitted by the non-fatal `TextDecoder` on invalid input. -/
def replacementChar : Char := Char.ofNat 0xFFFD

/-- UTF-8 encoding of one unicode scalar value. -/
def utf8EncodeChar (c : Char) : List Nat :=
  if c.toNat < 0x80 then [c.toNat]
  else if c.toNat < 0x800 then [0xC0 + c.toNat / 64, 0x80 + c.toNat % 64]
  else if c.toNat < 0x10000 then
    [0xE0 + c.toNat / 4096, 0x80 + c.toNat / 64 % 64, 0x80 + c.toNat % 64]
  else
    [0xF0 + c.toNat / 262144, 0x80 + c.toNat / 4096 % 64,
      0x80 + c.toNat / 64 % 64, 0x80 + c.toNat % 64]

/-- `TextEncoder.encode`: the UTF-8 bytes of a string. -/
def utf8Encode (s : String) : List Nat := (s.data.map utf8EncodeChar).flatten

/-- Is `b` a UTF-8 continuation byte (`10xxxxxx`)? -/
def isCont (b : Nat) : Bool := 0x80 ≤ b && b < 0xC0

/-- The scalar value a three-byte sequence denotes. -/
def scalar3 (b0 b1 b2 : Nat) : Nat := (b0 - 0xE0) * 4096 + (b1 - 0x80) * 64 + (b2 - 0x80)

/-- The scalar value a four-byte sequence denotes. -/
def scalar4 (b0 b1 b2 b3 : Nat) : Nat :=
  (b0 - 0xF0) * 262144 + (b1 - 0x80) * 4096 + (b2 - 0x80) * 64 + (b3 - 0x80)

/-- Decode one scalar from lead byte `b0` and the remaining bytes: the decoded
character (U+FFFD on invalid input) and how many continuation bytes were
consumed.  On invalid sequences the resynchronisation is simplified relative
to the WHATWG decoder; valid sequences are decoded exactly. -/
def utf8DecodeOne (b0 : Nat) (rest : List Nat) : Char × Nat :=
  if b0 < 0x80 then (Char.ofNat b0, 0)
  else if b0 < 0xC2 then (replacementChar, 0)
  else if b0 < 0xE0 then
    if 1 ≤ rest.length ∧ isCont (rest.getD 0 0) = true then
      (Char.ofNat ((b0 - 0xC0) * 64 + (rest.getD 0 0 - 0x80)), 1)
    else (replacementChar, 0)
  else if b0 < 0xF0 then
    if 2 ≤ rest.length ∧ isCont (rest.getD 0 0) = true ∧ isCont (rest.getD 1 0) = true then
      if 0x800 ≤ scalar3 b0 (rest.getD 0 0) (rest.getD 1 0) ∧
          (scalar3 b0 (rest.getD 0 0) (rest.getD 1 0) < 0xD800 ∨
            0xE000 ≤ scalar3 b0 (rest.getD 0 0) (rest.getD 1 0)) then
        (Char.ofNat (scalar3 b0 (rest.getD 0 0) (rest.getD 1 0)), 2)
      else (replacementChar, 2)
    else (replacementChar, 0)
  else if b0 < 0xF5 then
    if 3 ≤ rest.length ∧ isCont (rest.getD 0 0) = true ∧ isCont (rest.getD 1 0) = true ∧
        isCont (rest.getD 2 0) = true then
      if 0x10000 ≤ scalar4 b0 (rest.getD 0 0) (rest.getD 1 0) (rest.getD 2 0) ∧
          scalar4 b0 (rest.getD 0 0) (rest.getD 1 0) (rest.getD 2 0) < 0x110000 then
        (Char.ofNat (scalar4 b0 (rest.getD 0 0) (rest.getD 1 0) (rest.getD 2 0)), 3)
      else (replacementChar, 3)
    else (replacementChar, 0)
  else (replacementChar, 0)

/-- Fuelled UTF-8 decode loop; one unit of fuel per lead byte suffices. -/
def utf8DecodeFuel : Nat → List Nat → List Char
  | 0, _ => []
  | _, [] => []
  | fuel + 1, b :: rest =>
      (utf8DecodeOne b rest).1 ::
        utf8DecodeFuel fuel (rest.drop (utf8DecodeOne b rest).2)

/-- The characters a non-fatal UTF-8 decode of `l` yields. -/
def utf8DecodeList (l : List Nat) : List Char := utf8DecodeFuel l.length l

/-- `TextDecoder.decode` (default, non-fatal). -/
def utf8DecodeStr (l : List Nat) : String := ⟨utf8DecodeList l⟩

example : utf8Encode "hé€" = [104, 195, 169, 226, 130, 172] := by decide
example : utf8DecodeStr [104, 195, 169, 226, 130, 172] = "hé€" := by decide

/-! ## `crypto.subtle` (PBKDF2 and AES-GCM), abstracted

The route calls the platform's PBKDF2 and AES-GCM through `crypto.subtle`.
These keyed primitives are not reimplemented; they are abstracted as any
functions satisfying the standard AES-GCM contract: decryption under the
same key and IV inverts encryption, the ciphertext is the plaintext plus the
16-byte authentication tag, and ciphertext entries are bytes.  A `CryptoKey`
is modelled by its raw bytes. -/

structure SubtleCrypto where
  /-- `deriveBits`/`deriveKey` for PBKDF2-SHA256: password bytes, salt bytes,
  iteration count, key length in bits, to raw key bytes. -/
  pbkdf2Sha256 : List Nat → List Nat → Nat → Nat → List Nat
  /-- `crypto.subtle.encrypt` with AES-GCM: key, IV, plaintext bytes to
  ciphertext-with-tag bytes. -/
  gcmEncrypt : List Nat → List Nat → List Nat → List Nat
  /-- `crypto.subtle.decrypt` with AES-GCM: `none` models the rejection
  (thrown `OperationError`) on authentication failure. -/
  gcmDecrypt : List Nat → List Nat → List Nat → Option (List Nat)
  /-- AES-GCM decryption inverts encryption under the same key and IV. -/
  gcmDecrypt_gcmEncrypt : ∀ key iv m, ValidBytes m →
    gcmDecrypt key iv (gcmEncrypt key iv m) = some m
  /-- The ciphertext is the plaintext plus the 16-byte GCM tag. -/
  gcmEncrypt_length : ∀ key iv m, (gcmEncrypt key iv m).length = m.length + 16
  /-- Ciphertext entries are bytes. -/
  gcmEncrypt_valid : ∀ key iv m, ValidBytes (gcmEncrypt key iv m)

/-- A degenerate instance of the AES-GCM contract, used only to instantiate
theorems on concrete inputs: "encryption" appends sixteen zero tag bytes and
"decryption" checks and removes them. -/
def trivialSubtle : SubtleCrypto where
  pbkdf2Sha256 := fun password salt _ _ => password ++ salt
  gcmEncrypt := fun _ _ m => m.map (· % 256) ++ List.replicate 16 0
  gcmDecrypt := fun _ _ c =>
    if 16 ≤ c.length ∧ c.drop (c.length - 16) = List.replicate 16 0 then
      some (c.take (c.length - 16))
    else none
  gcmDecrypt_gcmEncrypt := by
    intro key iv m hm
    dsimp only
    have hlen : (m.map (· % 256) ++ List.replicate 16 0).length = m.length + 16 := by
      simp
    rw [if_pos ?hc]
    case hc =>
      constructor
      · simp
      · rw [hlen, Nat.add_sub_cancel,
          show m.length = (m.map (· % 256)).length from (List.length_map _ _).symm,
          List.drop_left]
    rw [hlen, Nat.add_sub_cancel,
      show m.length = (m.map (· % 256)).length from (List.length_map _ _).symm,
      List.take_left]
    congr 1
    calc m.map (· % 256) = m.map id := by
          apply List.map_congr_left
          intro b hb
          exact Nat.mod_eq_of_lt (hm b hb)
      _ = m := List.map_id m
  gcmEncrypt_length := by
    intro key iv m
    simp
  gcmEncrypt_valid := by
    intro key iv m b hb
    rcases List.mem_append.1 hb with hmap | hrep
    · obtain ⟨x, _, rfl⟩ := List.mem_map.1 hmap
      exact Nat.mod_lt _ (by omega)
    · rw [List.eq_of_mem_replicate hrep]
      omega

/-! ## The client-side encryption helpers (`app/routes/$id.tsx`, lines 11–93) -/

/-- `const IV_LENGTH = 12` (12-byte IV, standard for GCM). -/
def IV_LENGTH : Nat := 12

/-- `const KEY_LENGTH = 256` (256-bit key). -/
def KEY_LENGTH : Nat := 256

/-- The fixed PBKDF2 salt string of `deriveKey`. -/
def fixedSalt : String := "notes-app-fixed-salt"

/-- `const iterations = 100000` inside `deriveKey`. -/
def pbkdf2Iterations : Nat := 100000

/-- `deriveKey`: PBKDF2 over the fixed salt, 100000 iterations, SHA-256,
yielding a 256-bit AES-GCM key. -/
def deriveKey (C : SubtleCrypto) (passphrase : String) : List Nat :=
  C.pbkdf2Sha256 (utf8Encode passphrase) (utf8Encode fixedSalt)
    pbkdf2Iterations KEY_LENGTH

/-- `encryptMessage`: AES-GCM encrypt the UTF-8 bytes of `message` under
`key` and the drawn `iv`, and base64-encode `IV || ciphertext`.  The IV that
`crypto.getRandomValues` draws is passed explicitly. -/
def encryptMessage (C : SubtleCrypto) (message : String) (key : List Nat)
    (iv : List Nat) : String :=
  let encodedMessage := utf8Encode message
  let ciphertext := C.gcmEncrypt key iv encodedMessage
  btoa (iv ++ ciphertext)

/-- `decryptMessage`: base64-decode, reject inputs shorter than the IV,
split off the first `IV_LENGTH` bytes as the IV, AES-GCM decrypt the rest,
and UTF-8 decode.  `none` models every `throw` path. -/
def decryptMessage (C : SubtleCrypto) (encrypted : String) (key : List Nat) :
    Option String :=
  match atob encrypted with
  | none => none
  | some combined =>
      if combined.length < IV_LENGTH then none
      else
        let iv := combined.take IV_LENGTH
        let ciphertext := combined.drop IV_LENGTH
        match C.gcmDecrypt key iv ciphertext with
        | none => none
        | some plaintext => some (utf8DecodeStr plaintext)

/-- `isBase64` (lines 145–154): a string "looks encrypted" when `atob`
succeeds and the decoded length is at least `IV_LENGTH`. -/
def isBase64 (str : String) : Bool :=
  match atob str with
  | none => false
  | some decoded => decide (IV_LENGTH ≤ decoded.length)

example : isBase64 "AAAAAAAAAAAAAAAA" = true := by decide
example : isBase64 "hello world" = false := by decide
example : isBase64 "aGk=" = false := by decide

/-! ## The server side: `loader` and `action` of both route variants

`FormData.get` returns the first entry under a name: a string, a `File`
(modelled opaquely), or `null` when absent.  The two store calls
`noteManager.create(text)` and `noteManager.delete(id)` are recorded as an
effect trace, since the route only decides *whether* and with *which
arguments* to call the `TodoManager`. -/

/-- A `FormDataEntryValue`: a string or a `File`. -/
inductive FormValue where
  | str (s : String)
  | file
deriving DecidableEq

/-- A form body: entries in order. -/
abbrev FormData := List (String × FormValue)

/-- `formData.get(key)`: first value under `key`, `null` (`none`) if absent. -/
def FormData.get (fd : FormData) (key : String) : Option FormValue :=
  (fd.find? fun e => e.1 == key).map (·.2)

/-- The action's response: `{ success: true }` (HTTP 200) or
`Response.json({ error }, { status })`. -/
inductive Resp where
  | success
  | error (status : Nat) (message : String)
deriving DecidableEq

/-- Is the response an error response? -/
def Resp.isError : Resp → Bool
  | .success => false
  | .error _ _ => true

/-- The HTTP status of a response. -/
def Resp.status : Resp → Nat
  | .success => 200
  | .error s _ => s

/-- A store call the action performs on the `TodoManager`. -/
inductive StoreOp where
  | create (text : String)
  | delete (id : Option FormValue)
deriving DecidableEq

/-- The action's guard `typeof text !== "string" || !text`: the `text` entry
is absent, a `File`, or the empty string. -/
def invalidText : Option FormValue → Bool
  | some (.str t) => t == ""
  | _ => true

/-- The `action` of `app/routes/$id.tsx` (lines 106–132): dispatch on the
`intent` field; `create` requires a non-empty string `text`, `delete` passes
whatever `id` holds.  Returns the response and the store calls made. -/
def action (fd : FormData) : Resp × List StoreOp :=
  match FormData.get fd "intent" with
  | some (.str "create") =>
      match FormData.get fd "text" with
      | some (.str t) =>
          if t = "" then (.error 400 "Invalid text", [])
          else (.success, [.create t])
      | _ => (.error 400 "Invalid text", [])
  | some (.str "delete") => (.success, [.delete (FormData.get fd "id")])
  | _ => (.error 400 "Invalid intent", [])

/-- The `action` of the plain route variant (lines 17–41 of the unnamed
variant file): textually the same server logic. -/
def actionPlain (fd : FormData) : Resp × List StoreOp :=
  match FormData.get fd "intent" with
  | some (.str "create") =>
      match FormData.get fd "text" with
      | some (.str t) =>
          if t = "" then (.error 400 "Invalid text", [])
          else (.success, [.create t])
      | _ => (.error 400 "Invalid text", [])
  | some (.str "delete") => (.success, [.delete (FormData.get fd "id")])
  | _ => (.error 400 "Invalid intent", [])

/-- A note as the server stores and returns it. -/
structure ServerNote where
  id : String
  text : String
deriving DecidableEq

/-- The `loader` of `app/routes/$id.tsx` (lines 97–104): returns the list the
store's `list()` yields, unmodified. -/
def loader (storeNotes : List ServerNote) : List ServerNote := storeNotes

/-- The `loader` of the plain route variant (lines 8–15): the same. -/
def loaderPlain (storeNotes : List ServerNote) : List ServerNote := storeNotes

/-- Modelled from the spec: the `TodoManager` key-value wrapper
(`~/to-do-manager`) is imported by both route files but its source is not
among the given files.  Per the spec it persists notes per list-id:
`create` stores the submitted text under a (server- or client-assigned) id,
`delete` removes by id, `list` returns the stored notes.  `freshId` stands
for the id assigned to a created note. -/
def applyOp (freshId : String) : StoreOp → List ServerNote → List ServerNote
  | .create t, notes => notes ++ [⟨freshId, t⟩]
  | .delete (some (.str i)), notes => notes.filter fun n => n.id ≠ i
  | .delete _, notes => notes

/-- Apply a trace of store calls to a store state. -/
def applyOps (freshId : String) (ops : List StoreOp) (notes : List ServerNote) :
    List ServerNote :=
  ops.foldl (fun st op => applyOp freshId op st) notes

/-! ## The component (client side) -/

/-- The JS whitespace set that `String.prototype.trim` strips
(WhiteSpace ∪ LineTerminator). -/
def jsWhitespace (c : Char) : Bool :=
  decide (c.toNat = 9 ∨ c.toNat = 10 ∨ c.toNat = 11 ∨ c.toNat = 12 ∨
    c.toNat = 13 ∨ c.toNat = 32 ∨ c.toNat = 0xA0 ∨ c.toNat = 0x1680 ∨
    (0x2000 ≤ c.toNat ∧ c.toNat ≤ 0x200A) ∨ c.toNat = 0x2028 ∨
    c.toNat = 0x2029 ∨ c.toNat = 0x202F ∨ c.toNat = 0x205F ∨
    c.toNat = 0x3000 ∨ c.toNat = 0xFEFF)

/-- JS `String.prototype.trim`. -/
def jsTrim (s : String) : String :=
  ⟨((s.data.dropWhile jsWhitespace).reverse.dropWhile jsWhitespace).reverse⟩

example : jsTrim "  pw " = "pw" := by decide
example : jsTrim " " = "" := by decide

/-- The component's `Note` state: id, text, and the `encrypted` flag. -/
structure Note where
  id : String
  text : String
  encrypted : Bool
deriving DecidableEq

/-- The `useState` initialiser (lines 158–160): every server note is flagged
`encrypted` by the `isBase64` heuristic. -/
def initNotes (serverNotes : List ServerNote) : List Note :=
  serverNotes.map fun note => ⟨note.id, note.text, isBase64 note.text⟩

/-- `handleCreateSubmit` (lines 176–223): given the form's `text` and
`intent` entries and the `encryptKey` state, the body of the `fetch` the
handler sends, or `none` when it submits nothing.  When the trimmed key is
non-empty the text is encrypted first (the IV drawn is passed explicitly);
the constructed `FormData` holds exactly a `text` and an `intent` entry. -/
def handleCreateSubmit (C : SubtleCrypto) (iv : List Nat)
    (formText formIntent : Option FormValue) (encryptKey : String) :
    Option FormData :=
  match formText with
  | some (.str text) =>
      if text = "" then none
      else if formIntent ≠ some (.str "create") then none
      else if jsTrim encryptKey = "" then
        some [("text", .str text), ("intent", .str "create")]
      else
        some [("text", .str (encryptMessage C text (deriveKey C (jsTrim encryptKey)) iv)),
          ("intent", .str "create")]
  | _ => none

/-- The body of `handleDecryptAll`'s `map` (lines 238–253): an
`encrypted`-flagged note is decrypted if possible and kept verbatim
otherwise; a plaintext note keeps its text with the flag set false. -/
def decryptNote (C : SubtleCrypto) (key : List Nat) (note : Note) : Note :=
  if note.encrypted then
    match decryptMessage C note.text key with
    | some plaintext => ⟨note.id, plaintext, false⟩
    | none => note
  else ⟨note.id, note.text, false⟩

/-- `handleDecryptAll` (lines 228–260): with an empty trimmed key nothing
changes (only an alert is shown); otherwise every note goes through
`decryptNote` under the key derived from the trimmed passphrase. -/
def handleDecryptAll (C : SubtleCrypto) (decryptKey : String)
    (notes : List Note) : List Note :=
  if jsTrim decryptKey = "" then notes
  else notes.map (decryptNote C (deriveKey C (jsTrim decryptKey)))


/-! ## Round-trip lemmas for base64 and UTF-8 -/

theorem sextets_lt (l : List Nat) (h : ValidBytes l) : ∀ x ∈ sextets l, x < 64 := by
  induction l using sextets.induct with
  | case1 => simp [sextets]
  | case2 a =>
      have ha := h a (by simp)
      simp only [sextets, List.mem_cons, List.not_mem_nil, or_false]
      rintro x (rfl | rfl) <;> omega
  | case3 a b =>
      have ha := h a (by simp)
      have hb := h b (by simp)
      simp only [sextets, List.mem_cons, List.not_mem_nil, or_false]
      rintro x (rfl | rfl | rfl) <;> omega
  | case4 a b c rest ih =>
      have ha := h a (by simp)
      have hb := h b (by simp)
      have hc := h c (by simp)
      have hrest : ValidBytes rest := fun x hx => h x (by simp [hx])
      simp only [sextets, List.mem_cons]
      rintro x (rfl | rfl | rfl | rfl | hx)
      · omega
      · omega
      · omega
      · omega
      · exact ih hrest x hx

theorem b64Index_b64Char : ∀ n, n < 64 → b64Index (b64Char n) = some n := by decide

theorem b64Char_ne_pad : ∀ n, n < 64 → b64Char n ≠ '=' := by decide

theorem b64Char_not_ws : ∀ n, n < 64 → isB64Ws (b64Char n) = false := by decide

theorem btoaChars_filter (l : List Nat) (h : ValidBytes l) :
    (btoaChars l).filter (fun c => !(isB64Ws c)) = btoaChars l := by
  rw [List.filter_eq_self]
  intro c hc
  rcases List.mem_append.1 hc with hmap | hpad
  · obtain ⟨x, hx, rfl⟩ := List.mem_map.1 hmap
    simp [b64Char_not_ws x (sextets_lt l h x hx)]
  · have : c = '=' := List.eq_of_mem_replicate hpad
    subst this
    decide

theorem stripPadding_append_pad (xs : List Char) (k : Nat) (hk : k ≤ 2)
    (hne : ∀ c ∈ xs, c ≠ '=') (hlen : (xs.length + k) % 4 = 0) :
    stripPadding (xs ++ List.replicate k '=') = xs := by
  interval_cases k
  · simp only [List.replicate, List.append_nil]
    unfold stripPadding
    rw [if_pos (by simpa using hlen)]
    cases hxr : xs.reverse with
    | nil => simp
    | cons hd tl =>
        have hhd : hd ≠ '=' := hne hd (by rw [← List.mem_reverse, hxr]; simp)
        rw [if_neg (by simp [hhd]), if_neg (by simp [hhd])]
  · unfold stripPadding
    rw [if_pos (by simpa using hlen)]
    have hrev : (xs ++ List.replicate 1 '=').reverse = '=' :: xs.reverse := by
      simp [List.reverse_append]
    rw [hrev]
    have hfirst : ¬ (('=' :: xs.reverse).take 2 = ['=', '=']) := by
      cases hxr : xs.reverse with
      | nil => simp
      | cons hd tl =>
          have hhd : hd ≠ '=' := hne hd (by rw [← List.mem_reverse, hxr]; simp)
          simp [hhd]
    rw [if_neg hfirst, if_pos (by simp)]
    simp
  · unfold stripPadding
    rw [if_pos (by simpa using hlen)]
    have hrev : (xs ++ List.replicate 2 '=').reverse = '=' :: '=' :: xs.reverse := by
      simp [List.reverse_append]
    rw [hrev]
    rw [if_pos (by simp)]
    simp

theorem decodeChars_map (ys : List Nat) (h : ∀ x ∈ ys, x < 64) :
    decodeChars (ys.map b64Char) = some ys := by
  induction ys with
  | nil => simp [decodeChars]
  | cons y ys ih =>
      have hy := h y (by simp)
      have hys : ∀ x ∈ ys, x < 64 := fun x hx => h x (by simp [hx])
      simp only [List.map_cons, decodeChars, b64Index_b64Char y hy, ih hys]

theorem b64Group_sextets (l : List Nat) (h : ValidBytes l) : b64Group (sextets l) = l := by
  induction l using sextets.induct with
  | case1 => simp [sextets, b64Group]
  | case2 a =>
      have ha := h a (by simp)
      simp only [sextets, b64Group]
      congr 1
      omega
  | case3 a b =>
      have ha := h a (by simp)
      have hb := h b (by simp)
      simp only [sextets, b64Group]
      congr 1
      · omega
      · congr 1
        omega
  | case4 a b c rest ih =>
      have ha := h a (by simp)
      have hb := h b (by simp)
      have hc := h c (by simp)
      have hrest : ValidBytes rest := fun x hx => h x (by simp [hx])
      simp only [sextets, b64Group, ih hrest]
      congr 1
      · omega
      · congr 1
        · omega
        · congr 1
          omega

theorem sextets_length_padCount (l : List Nat) :
    ((sextets l).length + padCount l) % 4 = 0 := by
  induction l using sextets.induct with
  | case1 => simp [sextets, padCount]
  | case2 a => simp [sextets, padCount]
  | case3 a b => simp [sextets, padCount]
  | case4 a b c rest ih =>
      have hpad : padCount (a :: b :: c :: rest) = padCount rest := by
        unfold padCount
        have h3 : (a :: b :: c :: rest).length % 3 = rest.length % 3 := by
          simp only [List.length_cons]
          omega
        rw [h3]
      simp only [sextets, List.length_cons, hpad]
      omega

theorem padCount_le_two (l : List Nat) : padCount l ≤ 2 := by
  unfold padCount
  split <;> [omega; split <;> omega]

/-- `atob` inverts `btoa` on every byte list. -/
theorem atob_btoa (l : List Nat) (h : ValidBytes l) : atob (btoa l) = some l := by
  have hdata : (btoa l).data = btoaChars l := rfl
  have hstrip : stripPadding (btoaChars l) = (sextets l).map b64Char := by
    unfold btoaChars
    refine stripPadding_append_pad _ _ (padCount_le_two l) ?_ ?_
    · intro c hc
      obtain ⟨x, hx, rfl⟩ := List.mem_map.1 hc
      exact b64Char_ne_pad x (sextets_lt l h x hx)
    · simpa using sextets_length_padCount l
  have hlen : ¬ (((sextets l).map b64Char).length % 4 = 1) := by
    have h1 := sextets_length_padCount l
    have h2 := padCount_le_two l
    simp only [List.length_map]
    omega
  unfold atob
  rw [hdata, btoaChars_filter l h, hstrip]
  rw [if_neg hlen, decodeChars_map _ (sextets_lt l h)]
  simp [b64Group_sextets l h]

theorem char_toNat_valid (c : Char) :
    c.toNat < 0xD800 ∨ (0xE000 ≤ c.toNat ∧ c.toNat < 0x110000) := by
  have h := c.valid
  rcases h with h | h
  · left
    exact h
  · right
    exact h

theorem utf8EncodeChar_valid (c : Char) : ∀ b ∈ utf8EncodeChar c, b < 256 := by
  have hv := char_toNat_valid c
  intro b hb
  unfold utf8EncodeChar at hb
  by_cases h1 : c.toNat < 0x80
  · rw [if_pos h1] at hb
    simp only [List.mem_cons, List.not_mem_nil, or_false] at hb
    omega
  · rw [if_neg h1] at hb
    by_cases h2 : c.toNat < 0x800
    · rw [if_pos h2] at hb
      simp only [List.mem_cons, List.not_mem_nil, or_false] at hb
      rcases hb with rfl | rfl <;> omega
    · rw [if_neg h2] at hb
      by_cases h3 : c.toNat < 0x10000
      · rw [if_pos h3] at hb
        simp only [List.mem_cons, List.not_mem_nil, or_false] at hb
        rcases hb with rfl | rfl | rfl <;> omega
      · rw [if_neg h3] at hb
        simp only [List.mem_cons, List.not_mem_nil, or_false] at hb
        rcases hb with rfl | rfl | rfl | rfl <;> omega

/-- The UTF-8 bytes of any string are bytes. -/
theorem utf8Encode_valid (s : String) : ValidBytes (utf8Encode s) := by
  intro b hb
  unfold utf8Encode at hb
  rw [List.mem_flatten] at hb
  obtain ⟨l, hl, hbl⟩ := hb
  obtain ⟨c, _, rfl⟩ := List.mem_map.1 hl
  exact utf8EncodeChar_valid c b hbl

/-- At sufficient fuel, the fuelled decoder inverts the encoder on a whole
character list. -/
theorem utf8DecodeFuel_encode (cs : List Char) : ∀ fuel : Nat,
    ((cs.map utf8EncodeChar).flatten).length ≤ fuel →
    utf8DecodeFuel fuel ((cs.map utf8EncodeChar).flatten) = cs := by
  induction cs with
  | nil =>
      intro fuel _
      cases fuel <;> rfl
  | cons c cs ih =>
      intro fuel hfuel
      have hv := char_toNat_valid c
      have hofNat := Char.ofNat_toNat c
      simp only [List.map_cons, List.flatten_cons] at hfuel ⊢
      by_cases h1 : c.toNat < 0x80
      · rw [show utf8EncodeChar c = [c.toNat] from by
          unfold utf8EncodeChar; rw [if_pos h1]] at hfuel ⊢
        simp only [List.cons_append, List.nil_append, List.length_cons] at hfuel ⊢
        cases fuel with
        | zero => omega
        | succ f =>
            have hone : utf8DecodeOne c.toNat ((cs.map utf8EncodeChar).flatten) =
                (Char.ofNat c.toNat, 0) := by
              unfold utf8DecodeOne
              rw [if_pos h1]
            simp only [utf8DecodeFuel, hone, hofNat, List.drop_zero]
            exact congrArg _ (ih f (by omega))
      · by_cases h2 : c.toNat < 0x800
        · rw [show utf8EncodeChar c = [0xC0 + c.toNat / 64, 0x80 + c.toNat % 64] from by
            unfold utf8EncodeChar; rw [if_neg h1, if_pos h2]] at hfuel ⊢
          simp only [List.cons_append, List.nil_append, List.length_cons] at hfuel ⊢
          cases fuel with
          | zero => omega
          | succ f =>
              have hone : utf8DecodeOne (0xC0 + c.toNat / 64)
                  ((0x80 + c.toNat % 64) :: (cs.map utf8EncodeChar).flatten) =
                  (Char.ofNat c.toNat, 1) := by
                unfold utf8DecodeOne
                rw [if_neg (by omega), if_neg (by omega), if_pos (by omega)]
                rw [if_pos (by
                  refine ⟨by simp, ?_⟩
                  simp only [List.getD_cons_zero, isCont, Bool.and_eq_true, decide_eq_true_eq]
                  omega)]
                simp only [List.getD_cons_zero]
                rw [show (0xC0 + c.toNat / 64 - 0xC0) * 64 + (0x80 + c.toNat % 64 - 0x80)
                  = c.toNat from by omega]
              simp only [utf8DecodeFuel, hone, hofNat, List.drop_succ_cons, List.drop_zero]
              exact congrArg _ (ih f (by omega))
        · by_cases h3 : c.toNat < 0x10000
          · rw [show utf8EncodeChar c =
                [0xE0 + c.toNat / 4096, 0x80 + c.toNat / 64 % 64, 0x80 + c.toNat % 64] from by
              unfold utf8EncodeChar; rw [if_neg h1, if_neg h2, if_pos h3]] at hfuel ⊢
            simp only [List.cons_append, List.nil_append, List.length_cons] at hfuel ⊢
            cases fuel with
            | zero => omega
            | succ f =>
                have hsc : scalar3 (0xE0 + c.toNat / 4096) (0x80 + c.toNat / 64 % 64)
                    (0x80 + c.toNat % 64) = c.toNat := by
                  unfold scalar3
                  omega
                have hone : utf8DecodeOne (0xE0 + c.toNat / 4096)
                    ((0x80 + c.toNat / 64 % 64) :: (0x80 + c.toNat % 64) ::
                      (cs.map utf8EncodeChar).flatten) =
                    (Char.ofNat c.toNat, 2) := by
                  unfold utf8DecodeOne
                  rw [if_neg (by omega), if_neg (by omega), if_neg (by omega),
                    if_pos (by omega)]
                  simp only [List.getD_cons_zero, List.getD_cons_succ, hsc]
                  rw [if_pos (by
                    refine ⟨by simp, ?_, ?_⟩ <;>
                      simp only [isCont, Bool.and_eq_true, decide_eq_true_eq] <;> omega)]
                  rw [if_pos (by omega)]
                simp only [utf8DecodeFuel, hone, hofNat, List.drop_succ_cons, List.drop_zero]
                exact congrArg _ (ih f (by omega))
          · rw [show utf8EncodeChar c =
                [0xF0 + c.toNat / 262144, 0x80 + c.toNat / 4096 % 64,
                  0x80 + c.toNat / 64 % 64, 0x80 + c.toNat % 64] from by
              unfold utf8EncodeChar; rw [if_neg h1, if_neg h2, if_neg h3]] at hfuel ⊢
            simp only [List.cons_append, List.nil_append, List.length_cons] at hfuel ⊢
            cases fuel with
            | zero => omega
            | succ f =>
                have hsc : scalar4 (0xF0 + c.toNat / 262144) (0x80 + c.toNat / 4096 % 64)
                    (0x80 + c.toNat / 64 % 64) (0x80 + c.toNat % 64) = c.toNat := by
                  unfold scalar4
                  omega
                have hone : utf8DecodeOne (0xF0 + c.toNat / 262144)
                    ((0x80 + c.toNat / 4096 % 64) :: (0x80 + c.toNat / 64 % 64) ::
                      (0x80 + c.toNat % 64) :: (cs.map utf8EncodeChar).flatten) =
                    (Char.ofNat c.toNat, 3) := by
                  unfold utf8DecodeOne
                  rw [if_neg (by omega), if_neg (by omega), if_neg (by omega),
                    if_neg (by omega), if_pos (by omega)]
                  simp only [List.getD_cons_zero, List.getD_cons_succ, hsc]
                  rw [if_pos (by
                    refine ⟨by simp, ?_, ?_, ?_⟩ <;>
                      simp only [isCont, Bool.and_eq_true, decide_eq_true_eq] <;> omega)]
                  rw [if_pos (by omega)]
                simp only [utf8DecodeFuel, hone, hofNat, List.drop_succ_cons, List.drop_zero]
                exact congrArg _ (ih f (by omega))

/-- The decoder inverts the encoder on a whole character list. -/
theorem utf8DecodeList_encode (cs : List Char) :
    utf8DecodeList ((cs.map utf8EncodeChar).flatten) = cs :=
  utf8DecodeFuel_encode cs _ le_rfl

/-- `TextDecoder.decode` inverts `TextEncoder.encode` on every string. -/
theorem utf8DecodeStr_encode (s : String) : utf8DecodeStr (utf8Encode s) = s := by
  unfold utf8DecodeStr utf8Encode
  rw [utf8DecodeList_encode]
/-! ## Stepping lemmas -/

/-- `encryptMessage` outputs valid base64: decoding it recovers
`IV || ciphertext`. -/
theorem atob_encryptMessage (C : SubtleCrypto) (m : String) (key iv : List Nat)
    (hiv : ValidBytes iv) :
    atob (encryptMessage C m key iv) =
      some (iv ++ C.gcmEncrypt key iv (utf8Encode m)) := by
  unfold encryptMessage
  apply atob_btoa
  intro b hb
  rcases List.mem_append.1 hb with h | h
  · exact hiv b h
  · exact C.gcmEncrypt_valid key iv _ b h

theorem decryptMessage_none (C : SubtleCrypto) (s : String) (key : List Nat)
    (h : atob s = none) : decryptMessage C s key = none := by
  unfold decryptMessage
  rw [h]

theorem decryptMessage_some (C : SubtleCrypto) (s : String) (key com : List Nat)
    (h : atob s = some com) :
    decryptMessage C s key =
      if com.length < IV_LENGTH then none
      else
        match C.gcmDecrypt key (com.take IV_LENGTH) (com.drop IV_LENGTH) with
        | none => none
        | some plaintext => some (utf8DecodeStr plaintext) := by
  unfold decryptMessage
  rw [h]

theorem isBase64_some (s : String) (com : List Nat) (h : atob s = some com) :
    isBase64 s = decide (IV_LENGTH ≤ com.length) := by
  unfold isBase64
  rw [h]

/-! ## The claims -/

/-- C1: Round-trip of the client-side encryption helper: for every message
string `m` and passphrase `p`, with `k = deriveKey p`,
`decryptMessage (encryptMessage m k) k` returns `m`, for any 12-byte IV the
encryption step draws. -/
theorem C1_encrypt_decrypt_roundtrip (C : SubtleCrypto) (m p : String)
    (iv : List Nat) (hlen : iv.length = IV_LENGTH) (hiv : ValidBytes iv) :
    decryptMessage C (encryptMessage C m (deriveKey C p) iv) (deriveKey C p) =
      some m := by
  rw [decryptMessage_some C _ _ _ (atob_encryptMessage C m (deriveKey C p) iv hiv)]
  have hct := C.gcmEncrypt_length (deriveKey C p) iv (utf8Encode m)
  rw [if_neg (by simp only [List.length_append, hct]; omega)]
  have htake : (iv ++ C.gcmEncrypt (deriveKey C p) iv (utf8Encode m)).take IV_LENGTH
      = iv := by
    rw [← hlen, List.take_left]
  have hdrop : (iv ++ C.gcmEncrypt (deriveKey C p) iv (utf8Encode m)).drop IV_LENGTH
      = C.gcmEncrypt (deriveKey C p) iv (utf8Encode m) := by
    rw [← hlen, List.drop_left]
  rw [htake, hdrop, C.gcmDecrypt_gcmEncrypt _ _ _ (utf8Encode_valid m)]
  show some (utf8DecodeStr (utf8Encode m)) = some m
  rw [utf8DecodeStr_encode]

/-- Witness for C1 at a concrete message, passphrase and IV. -/
theorem C1_encrypt_decrypt_roundtrip_witness :
    (List.replicate 12 0).length = IV_LENGTH ∧
    ValidBytes (List.replicate 12 0) ∧
    decryptMessage trivialSubtle
      (encryptMessage trivialSubtle "hi" (deriveKey trivialSubtle "pw")
        (List.replicate 12 0))
      (deriveKey trivialSubtle "pw") = some "hi" :=
  ⟨by decide, by decide,
    C1_encrypt_decrypt_roundtrip trivialSubtle "hi" "pw" (List.replicate 12 0)
      (by decide) (by decide)⟩

/-- C2: Wire format: `encryptMessage` returns the base64 encoding of the
12-byte IV immediately followed by the AES-GCM ciphertext, and
`decryptMessage` parses inversely: the first `IV_LENGTH` decoded bytes are
the IV, the remaining ones the ciphertext. -/
theorem C2_wire_format (C : SubtleCrypto) (m : String) (key iv : List Nat)
    (s : String) (com k : List Nat)
    (hlen : iv.length = IV_LENGTH) (hiv : ValidBytes iv)
    (hs : atob s = some com) (hcom : IV_LENGTH ≤ com.length) :
    atob (encryptMessage C m key iv) =
      some (iv ++ C.gcmEncrypt key iv (utf8Encode m)) ∧
    decryptMessage C s k =
      (C.gcmDecrypt k (com.take IV_LENGTH) (com.drop IV_LENGTH)).map utf8DecodeStr := by
  refine ⟨atob_encryptMessage C m key iv hiv, ?_⟩
  rw [decryptMessage_some C s k com hs, if_neg (by omega)]
  cases C.gcmDecrypt k (com.take IV_LENGTH) (com.drop IV_LENGTH) <;> simp

/-- Witness for C2 at concrete inputs. -/
theorem C2_wire_format_witness :
    (List.replicate 12 0).length = IV_LENGTH ∧
    ValidBytes (List.replicate 12 0) ∧
    atob "AAAAAAAAAAAAAAAA" = some (List.replicate 12 0) ∧
    IV_LENGTH ≤ (List.replicate 12 (0 : Nat)).length ∧
    (atob (encryptMessage trivialSubtle "" [] (List.replicate 12 0)) =
      some (List.replicate 12 0 ++
        trivialSubtle.gcmEncrypt [] (List.replicate 12 0) (utf8Encode "")) ∧
    decryptMessage trivialSubtle "AAAAAAAAAAAAAAAA" [] =
      (trivialSubtle.gcmDecrypt [] ((List.replicate 12 0).take IV_LENGTH)
        ((List.replicate 12 0).drop IV_LENGTH)).map utf8DecodeStr) :=
  ⟨by decide, by decide, by decide, by decide,
    C2_wire_format trivialSubtle "" [] (List.replicate 12 0) "AAAAAAAAAAAAAAAA"
      (List.replicate 12 0) [] (by decide) (by decide) (by decide) (by decide)⟩

/-- C3 counterexample: the claim "`isBase64` is true iff the text is a
ciphertext produced by `encryptMessage`" fails at the concrete plaintext
`"AAAAAAAAAAAAAAAA"`: the heuristic marks it encrypted, yet no message, key
and 12-byte IV make `encryptMessage` produce it (the decoded output of
`encryptMessage` is at least 28 bytes long, this string decodes to 12). -/
theorem C3_counterexample :
    isBase64 "AAAAAAAAAAAAAAAA" = true ∧
    ∀ (C : SubtleCrypto) (m : String) (key iv : List Nat),
      iv.length = IV_LENGTH → ValidBytes iv →
      encryptMessage C m key iv ≠ "AAAAAAAAAAAAAAAA" := by
  refine ⟨by decide, ?_⟩
  intro C m key iv hlen hiv heq
  have h1 := atob_encryptMessage C m key iv hiv
  rw [heq, show atob "AAAAAAAAAAAAAAAA" = some (List.replicate 12 0) from by decide]
    at h1
  have h2 : (List.replicate 12 (0 : Nat)).length =
      (iv ++ C.gcmEncrypt key iv (utf8Encode m)).length := by
    rw [Option.some_inj.1 h1]
  have h3 := C.gcmEncrypt_length key iv (utf8Encode m)
  simp only [List.length_replicate, List.length_append, h3] at h2
  omega

/-- C3 amended: the heuristic is sound but not complete: every text produced
by `encryptMessage` is marked encrypted (both by `isBase64` and in the
component state `initNotes` builds), and in general `isBase64` holds exactly
when the text is valid base64 whose decoding is at least `IV_LENGTH` bytes —
which some plaintexts also satisfy. -/
theorem C3_heuristic_sound (C : SubtleCrypto) (m : String) (key iv : List Nat)
    (nid s : String) (com : List Nat)
    (hlen : iv.length = IV_LENGTH) (hiv : ValidBytes iv)
    (hs : atob s = some com) :
    isBase64 (encryptMessage C m key iv) = true ∧
    initNotes [⟨nid, encryptMessage C m key iv⟩] =
      [⟨nid, encryptMessage C m key iv, true⟩] ∧
    (isBase64 s = true ↔ IV_LENGTH ≤ com.length) := by
  have hmark : isBase64 (encryptMessage C m key iv) = true := by
    rw [isBase64_some _ _ (atob_encryptMessage C m key iv hiv)]
    have h3 := C.gcmEncrypt_length key iv (utf8Encode m)
    simp only [List.length_append, h3, decide_eq_true_eq]
    omega
  refine ⟨hmark, ?_, ?_⟩
  · unfold initNotes
    simp [hmark]
  · rw [isBase64_some s com hs]
    simp

/-- Witness for the amended C3 at concrete inputs. -/
theorem C3_heuristic_sound_witness :
    (List.replicate 12 0).length = IV_LENGTH ∧
    ValidBytes (List.replicate 12 0) ∧
    atob "aGk=" = some [104, 105] ∧
    (isBase64 (encryptMessage trivialSubtle "hi" [] (List.replicate 12 0)) = true ∧
    initNotes [⟨"n1", encryptMessage trivialSubtle "hi" [] (List.replicate 12 0)⟩] =
      [⟨"n1", encryptMessage trivialSubtle "hi" [] (List.replicate 12 0), true⟩] ∧
    (isBase64 "aGk=" = true ↔ IV_LENGTH ≤ [104, 105].length)) :=
  ⟨by decide, by decide, by decide,
    C3_heuristic_sound trivialSubtle "hi" [] (List.replicate 12 0) "n1" "aGk="
      [104, 105] (by decide) (by decide) (by decide)⟩

/-- C4: The passphrase never leaves the browser: whenever
`handleCreateSubmit` submits, the form data holds exactly the fields
`text` and `intent` (in particular no passphrase field); the submitted
field names are the same for any other passphrase; and with an empty
trimmed passphrase the `text` sent is the plaintext unmodified. -/
theorem C4_passphrase_never_sent (C : SubtleCrypto) (iv : List Nat)
    (text : String) (fintent : Option FormValue) (k1 k2 : String) (fd : FormData)
    (hfd : handleCreateSubmit C iv (some (.str text)) fintent k1 = some fd) :
    fd.map Prod.fst = ["text", "intent"] ∧
    (handleCreateSubmit C iv (some (.str text)) fintent k2).map
      (List.map Prod.fst) = some ["text", "intent"] ∧
    (jsTrim k1 = "" → fd = [("text", .str text), ("intent", .str "create")]) := by
  simp only [handleCreateSubmit] at hfd ⊢
  by_cases h1 : text = ""
  · rw [if_pos h1] at hfd
    cases hfd
  · rw [if_neg h1] at hfd ⊢
    by_cases h2 : fintent ≠ some (.str "create")
    · rw [if_pos h2] at hfd
      cases hfd
    · rw [if_neg h2] at hfd ⊢
      by_cases h3 : jsTrim k1 = ""
      · rw [if_pos h3] at hfd
        have hfd' := Option.some_inj.1 hfd
        subst hfd'
        refine ⟨by simp, ?_, fun _ => rfl⟩
        by_cases h4 : jsTrim k2 = "" <;> simp [h4]
      · rw [if_neg h3] at hfd
        have hfd' := Option.some_inj.1 hfd
        subst hfd'
        refine ⟨by simp, ?_, fun h => absurd h h3⟩
        by_cases h4 : jsTrim k2 = "" <;> simp [h4]

/-- Witness for C4 at a concrete plaintext and passphrases. -/
theorem C4_passphrase_never_sent_witness :
    handleCreateSubmit trivialSubtle (List.replicate 12 0) (some (.str "hello"))
      (some (.str "create")) "" =
      some [("text", .str "hello"), ("intent", .str "create")] ∧
    ([(("text" : String), FormValue.str "hello"),
        (("intent" : String), FormValue.str "create")].map Prod.fst =
      ["text", "intent"] ∧
    (handleCreateSubmit trivialSubtle (List.replicate 12 0) (some (.str "hello"))
      (some (.str "create")) "pw").map (List.map Prod.fst) =
      some ["text", "intent"] ∧
    (jsTrim "" = "" →
      [(("text" : String), FormValue.str "hello"),
        (("intent" : String), FormValue.str "create")] =
        [("text", .str "hello"), ("intent", .str "create")])) :=
  ⟨by decide,
    C4_passphrase_never_sent trivialSubtle (List.replicate 12 0) "hello"
      (some (.str "create")) "" "pw"
      [("text", .str "hello"), ("intent", .str "create")] (by decide)⟩

/-- C5: The action returns an HTTP 400 error iff the intent is neither
`create` nor `delete`, or the intent is `create` and the `text` entry is
absent, not a string, or empty; no store call is made in any error case; and
the `delete` branch always succeeds, whatever the `id` entry holds. -/
theorem C5_action_error_conditions (fd : FormData) :
    ((action fd).1.isError = true ↔
      ((FormData.get fd "intent" ≠ some (.str "create") ∧
        FormData.get fd "intent" ≠ some (.str "delete")) ∨
       (FormData.get fd "intent" = some (.str "create") ∧
        invalidText (FormData.get fd "text") = true))) ∧
    ((action fd).1.isError = true → (action fd).2 = []) ∧
    ((action fd).1.isError = true → (action fd).1.status = 400) ∧
    (FormData.get fd "intent" = some (.str "delete") →
      action fd = (.success, [.delete (FormData.get fd "id")])) := by
  unfold action
  split
  · rename_i hintent
    split
    · rename_i t htext
      by_cases ht : t = ""
      · rw [if_pos ht]
        subst ht
        simp [hintent, htext, invalidText, Resp.isError, Resp.status]
      · rw [if_neg ht]
        simp [hintent, htext, invalidText, Resp.isError, ht]
    · rename_i hother
      rcases htext : FormData.get fd "text" with _ | v
      · simp [hintent, htext, invalidText, Resp.isError, Resp.status]
      · rcases v with t | _
        · exact absurd htext (hother t)
        · simp [hintent, htext, invalidText, Resp.isError, Resp.status]
  · rename_i hintent
    simp [hintent, Resp.isError]
  · rename_i hc hd
    refine ⟨?_, fun _ => rfl, fun _ => rfl, fun h => absurd h hd⟩
    simp only [Resp.isError, true_iff]
    exact Or.inl ⟨hc, hd⟩

/-- Witness for C5 at a concrete delete request. -/
theorem C5_action_error_conditions_witness :
    ((action [(("intent" : String), FormValue.str "delete"),
        (("id" : String), FormValue.str "7")]).1.isError = true ↔
      ((FormData.get [(("intent" : String), FormValue.str "delete"),
          (("id" : String), FormValue.str "7")] "intent" ≠ some (.str "create") ∧
        FormData.get [(("intent" : String), FormValue.str "delete"),
          (("id" : String), FormValue.str "7")] "intent" ≠ some (.str "delete")) ∨
       (FormData.get [(("intent" : String), FormValue.str "delete"),
          (("id" : String), FormValue.str "7")] "intent" = some (.str "create") ∧
        invalidText (FormData.get [(("intent" : String), FormValue.str "delete"),
          (("id" : String), FormValue.str "7")] "text") = true))) ∧
    ((action [(("intent" : String), FormValue.str "delete"),
        (("id" : String), FormValue.str "7")]).1.isError = true →
      (action [(("intent" : String), FormValue.str "delete"),
        (("id" : String), FormValue.str "7")]).2 = []) ∧
    ((action [(("intent" : String), FormValue.str "delete"),
        (("id" : String), FormValue.str "7")]).1.isError = true →
      (action [(("intent" : String), FormValue.str "delete"),
        (("id" : String), FormValue.str "7")]).1.status = 400) ∧
    (FormData.get [(("intent" : String), FormValue.str "delete"),
        (("id" : String), FormValue.str "7")] "intent" = some (.str "delete") →
      action [(("intent" : String), FormValue.str "delete"),
        (("id" : String), FormValue.str "7")] =
        (.success, [.delete (FormData.get [(("intent" : String), FormValue.str "delete"),
          (("id" : String), FormValue.str "7")] "id")])) :=
  C5_action_error_conditions
    [(("intent" : String), FormValue.str "delete"), (("id" : String), FormValue.str "7")]

/-- C6: The server treats note text as opaque: a successful create stores
exactly the submitted `text` (the only store call is `create text`, and
applying it appends the note verbatim), and the loader returns the store's
list unmodified and in order. -/
theorem C6_server_opaque (fd : FormData) (t freshId : String)
    (store : List ServerNote)
    (hintent : FormData.get fd "intent" = some (.str "create"))
    (htext : FormData.get fd "text" = some (.str t)) (hne : t ≠ "") :
    action fd = (.success, [.create t]) ∧
    applyOps freshId (action fd).2 store = store ++ [⟨freshId, t⟩] ∧
    loader (store ++ [⟨freshId, t⟩]) = store ++ [⟨freshId, t⟩] := by
  have ha : action fd = (.success, [.create t]) := by
    unfold action
    rw [hintent, htext]
    show (if t = "" then (Resp.error 400 "Invalid text", ([] : List StoreOp))
      else (.success, [.create t])) = (.success, [.create t])
    rw [if_neg hne]
  refine ⟨ha, ?_, rfl⟩
  rw [ha]
  simp [applyOps, applyOp]

/-- Witness for C6 at a concrete create request. -/
theorem C6_server_opaque_witness :
    FormData.get [(("intent" : String), FormValue.str "create"),
      (("text" : String), FormValue.str "milk")] "intent" = some (.str "create") ∧
    FormData.get [(("intent" : String), FormValue.str "create"),
      (("text" : String), FormValue.str "milk")] "text" = some (.str "milk") ∧
    ("milk" : String) ≠ "" ∧
    (action [(("intent" : String), FormValue.str "create"),
        (("text" : String), FormValue.str "milk")] = (.success, [.create "milk"]) ∧
    applyOps "id1" (action [(("intent" : String), FormValue.str "create"),
        (("text" : String), FormValue.str "milk")]).2 [⟨"id0", "eggs"⟩] =
      [⟨"id0", "eggs"⟩] ++ [⟨"id1", "milk"⟩] ∧
    loader ([⟨"id0", "eggs"⟩] ++ [⟨"id1", "milk"⟩]) =
      [⟨"id0", "eggs"⟩] ++ [⟨"id1", "milk"⟩]) :=
  ⟨by decide, by decide, by decide,
    C6_server_opaque [(("intent" : String), FormValue.str "create"),
      (("text" : String), FormValue.str "milk")] "milk" "id1" [⟨"id0", "eggs"⟩]
      (by decide) (by decide) (by decide)⟩

/-- C7: The two route variants are server-side equivalent: their `action`s
agree on every request (same response, same store calls) and their `loader`s
agree on every store state. -/
theorem C7_variants_equivalent (fd : FormData) (storeNotes : List ServerNote) :
    action fd = actionPlain fd ∧ loader storeNotes = loaderPlain storeNotes :=
  ⟨rfl, rfl⟩

/-- C8: `deriveKey` runs PBKDF2-SHA256 with the fixed salt
`"notes-app-fixed-salt"` (whose UTF-8 bytes are spelled out below), 100000
iterations and a 256-bit key length, so the derived key is a function of the
passphrase alone: equal passphrases yield equal keys. -/
theorem C8_deriveKey_fixed_salt (C : SubtleCrypto) (p q : String) (hpq : p = q) :
    deriveKey C p =
      C.pbkdf2Sha256 (utf8Encode p)
        [110, 111, 116, 101, 115, 45, 97, 112, 112, 45, 102, 105, 120, 101,
          100, 45, 115, 97, 108, 116] 100000 256 ∧
    deriveKey C p = deriveKey C q := by
  subst hpq
  refine ⟨?_, rfl⟩
  unfold deriveKey pbkdf2Iterations KEY_LENGTH
  rw [show utf8Encode fixedSalt =
    [110, 111, 116, 101, 115, 45, 97, 112, 112, 45, 102, 105, 120, 101,
      100, 45, 115, 97, 108, 116] from by decide]

/-- Witness for C8 at a concrete passphrase. -/
theorem C8_deriveKey_fixed_salt_witness :
    ("a" : String) = "a" ∧
    (deriveKey trivialSubtle "a" =
      trivialSubtle.pbkdf2Sha256 (utf8Encode "a")
        [110, 111, 116, 101, 115, 45, 97, 112, 112, 45, 102, 105, 120, 101,
          100, 45, 115, 97, 108, 116] 100000 256 ∧
    deriveKey trivialSubtle "a" = deriveKey trivialSubtle "a") :=
  ⟨rfl, C8_deriveKey_fixed_salt trivialSubtle "a" "a" rfl⟩

/-- C9: `decryptMessage` returns no plaintext — for any provider and any
key — whenever its input is not valid base64 or decodes to fewer than
`IV_LENGTH` bytes (the hypothesis covers both: the decoded length, `0` when
`atob` fails, is below `IV_LENGTH`), modelling that it throws before any
AES-GCM decryption is attempted. -/
theorem C9_short_input_guard (C : SubtleCrypto) (key : List Nat) (s : String)
    (h : ((atob s).map List.length).getD 0 < IV_LENGTH) :
    decryptMessage C s key = none := by
  cases hs : atob s with
  | none => exact decryptMessage_none C s key hs
  | some com =>
      rw [hs] at h
      simp at h
      rw [decryptMessage_some C s key com hs, if_pos h]

/-- Witness for C9 at a two-character base64 input (decoding to one byte)
and at a non-base64 input. -/
theorem C9_short_input_guard_witness :
    ((atob "AA").map List.length).getD 0 < IV_LENGTH ∧
    decryptMessage trivialSubtle "AA" [] = none :=
  ⟨by decide, C9_short_input_guard trivialSubtle [] "AA" (by decide)⟩

/-- C10: Frame property of Decrypt All: `handleDecryptAll` preserves the
number, order and ids of the notes (and leaves them untouched when the
trimmed key is empty); per note, a failed decryption keeps the exact text and
the `encrypted` flag, an unencrypted note keeps its text with the flag set
false, and only a successful decryption replaces the text (by the recovered
plaintext, clearing the flag). -/
theorem C10_decryptAll_frame (C : SubtleCrypto) (dk : String)
    (notes : List Note) (note : Note) (pt : String) :
    (handleDecryptAll C dk notes).length = notes.length ∧
    (handleDecryptAll C dk notes).map Note.id = notes.map Note.id ∧
    (jsTrim dk = "" → handleDecryptAll C dk notes = notes) ∧
    (jsTrim dk ≠ "" →
      handleDecryptAll C dk notes =
        notes.map (decryptNote C (deriveKey C (jsTrim dk)))) ∧
    (note.encrypted = false →
      decryptNote C (deriveKey C (jsTrim dk)) note = ⟨note.id, note.text, false⟩) ∧
    (note.encrypted = true →
      decryptMessage C note.text (deriveKey C (jsTrim dk)) = none →
      decryptNote C (deriveKey C (jsTrim dk)) note = note) ∧
    (note.encrypted = true →
      decryptMessage C note.text (deriveKey C (jsTrim dk)) = some pt →
      decryptNote C (deriveKey C (jsTrim dk)) note = ⟨note.id, pt, false⟩) := by
  have hid : ∀ (k : List Nat) (n : Note), (decryptNote C k n).id = n.id := by
    intro k n
    unfold decryptNote
    by_cases he : n.encrypted
    · rw [if_pos he]
      cases decryptMessage C n.text k <;> rfl
    · rw [if_neg he]
  have hall : (handleDecryptAll C dk notes).length = notes.length ∧
      (handleDecryptAll C dk notes).map Note.id = notes.map Note.id := by
    unfold handleDecryptAll
    by_cases hk : jsTrim dk = ""
    · rw [if_pos hk]
      exact ⟨rfl, rfl⟩
    · rw [if_neg hk]
      refine ⟨List.length_map _ _, ?_⟩
      rw [List.map_map]
      exact List.map_congr_left fun n _ => hid _ n
  refine ⟨hall.1, hall.2, ?_, ?_, ?_, ?_, ?_⟩
  · intro hk
    unfold handleDecryptAll
    rw [if_pos hk]
  · intro hk
    unfold handleDecryptAll
    rw [if_neg hk]
  · intro he
    unfold decryptNote
    rw [if_neg (by rw [he]; exact Bool.false_ne_true)]
  · intro he hfail
    unfold decryptNote
    rw [if_pos he, hfail]
  · intro he hok
    unfold decryptNote
    rw [if_pos he, hok]

/-- Witness for C10 on a two-note state: one note decrypts, one is plaintext. -/
theorem C10_decryptAll_frame_witness :
    (handleDecryptAll trivialSubtle "k"
      [⟨"n1", btoa (List.replicate 28 0), true⟩, ⟨"n2", "plain", false⟩]).length =
      ([⟨"n1", btoa (List.replicate 28 0), true⟩,
        (⟨"n2", "plain", false⟩ : Note)] : List Note).length ∧
    (handleDecryptAll trivialSubtle "k"
      [⟨"n1", btoa (List.replicate 28 0), true⟩, ⟨"n2", "plain", false⟩]).map
        Note.id =
      ([⟨"n1", btoa (List.replicate 28 0), true⟩,
        (⟨"n2", "plain", false⟩ : Note)] : List Note).map Note.id ∧
    (jsTrim "k" = "" → handleDecryptAll trivialSubtle "k"
      [⟨"n1", btoa (List.replicate 28 0), true⟩, ⟨"n2", "plain", false⟩] =
      [⟨"n1", btoa (List.replicate 28 0), true⟩, ⟨"n2", "plain", false⟩]) ∧
    (jsTrim "k" ≠ "" →
      handleDecryptAll trivialSubtle "k"
        [⟨"n1", btoa (List.replicate 28 0), true⟩, ⟨"n2", "plain", false⟩] =
        ([⟨"n1", btoa (List.replicate 28 0), true⟩,
          (⟨"n2", "plain", false⟩ : Note)] : List Note).map
          (decryptNote trivialSubtle (deriveKey trivialSubtle (jsTrim "k")))) ∧
    ((⟨"n1", btoa (List.replicate 28 0), true⟩ : Note).encrypted = false →
      decryptNote trivialSubtle (deriveKey trivialSubtle (jsTrim "k"))
        ⟨"n1", btoa (List.replicate 28 0), true⟩ =
        ⟨"n1", btoa (List.replicate 28 0), false⟩) ∧
    ((⟨"n1", btoa (List.replicate 28 0), true⟩ : Note).encrypted = true →
      decryptMessage trivialSubtle (btoa (List.replicate 28 0))
        (deriveKey trivialSubtle (jsTrim "k")) = none →
      decryptNote trivialSubtle (deriveKey trivialSubtle (jsTrim "k"))
        ⟨"n1", btoa (List.replicate 28 0), true⟩ =
        ⟨"n1", btoa (List.replicate 28 0), true⟩) ∧
    ((⟨"n1", btoa (List.replicate 28 0), true⟩ : Note).encrypted = true →
      decryptMessage trivialSubtle (btoa (List.replicate 28 0))
        (deriveKey trivialSubtle (jsTrim "k")) = some "" →
      decryptNote trivialSubtle (deriveKey trivialSubtle (jsTrim "k"))
        ⟨"n1", btoa (List.replicate 28 0), true⟩ = ⟨"n1", "", false⟩) :=
  C10_decryptAll_frame trivialSubtle "k"
    [⟨"n1", btoa (List.replicate 28 0), true⟩, ⟨"n2", "plain", false⟩]
    ⟨"n1", btoa (List.replicate 28 0), true⟩ ""

end TodoApp
